import Mathlib

/-!
Verification of the semantic description/tree engine of pytest-pyspec.

This development is a shallow embedding of `pytest_pyspec/tree.py` and
`pytest_pyspec/decorators.py` (the modules actually wired into the plugin;
`item.py`/`output.py` are an older, unused variant).

Two layers are modelled:

* The node/description layer (`NodeData`, `PNode`): a semantic tree node as
  built by the tree builder, carrying the data the resolver reads
  (identifier, docstring, decorator annotation, outcome) plus an `id` that
  stands for Python object identity (distinct allocations are assumed to
  carry distinct ids; `is`-comparisons in the source become id equality).

* The builder layer (`RawEnv`, `BNode`, `BuilderState`): raw pytest items are
  an arena of integer handles (identity = handle), and `SemanticTreeBuilder`
  becomes explicit state passing over an arena of built nodes plus a cache.

Machine strings are Lean `String` (a wrapper around `List Char`); Python
string operations are re-implemented on the character list so that proofs
and kernel evaluation stay elementary.
-/

/-! ## Python string primitives -/

/-- Python `str.strip()`: drop leading and trailing whitespace. -/
def pyStrip (s : String) : String :=
  String.mk (((s.data.dropWhile Char.isWhitespace).reverse.dropWhile Char.isWhitespace).reverse)

/-- `docstring.splitlines()[0]`: the text up to the first line boundary. -/
def firstLine (s : String) : String :=
  String.mk (s.data.takeWhile (fun c => !(c == '\n' || c == '\r')))

/-- Python `str.lower()` (all identifiers involved are ASCII). -/
def lowerStr (s : String) : String :=
  String.mk (s.data.map Char.toLower)

/-- Python `str.startswith(pre)`. -/
def startsWithStr (s pre : String) : Bool :=
  pre.data.isPrefixOf s.data

/-- Helper for Python `str.split()`: accumulate words, splitting on
whitespace runs and discarding empties. -/
def wordsOfAux : List Char → List Char → List String
  | [], acc => if acc = [] then [] else [String.mk acc.reverse]
  | c :: rest, acc =>
      if c.isWhitespace then
        (if acc = [] then wordsOfAux rest [] else String.mk acc.reverse :: wordsOfAux rest [])
      else
        wordsOfAux rest (c :: acc)

/-- Python `str.split()` with no argument. -/
def pySplitWords (s : String) : List String :=
  wordsOfAux s.data []

/-- Python `s * n` for strings (used as `"  " * level`). -/
def pyRepeat (s : String) : Nat → String
  | 0 => ""
  | n + 1 => s ++ pyRepeat s n

/-! ## Node model (`tree.py`) -/

/-- The four node classes of `tree.py`: `TestFile`, `DescribedObject`,
`TestContext`, `Test`. -/
inductive Variant where
  | testFile
  | describedObject
  | testContext
  | test
deriving DecidableEq

/-- The data one `PytestNode` carries: `id` models Python object identity,
`name` is the stored `_original_name`, `docstring` the `__doc__` attribute of
the wrapped object, `annot` the `__pyspec_description__` attribute stored by
the decorators, and `outcome` the mutable test outcome string. -/
structure NodeData where
  id : Nat
  variant : Variant
  name : String
  docstring : Option String
  annot : Option String
  outcome : Option String
deriving DecidableEq

/-! ## Description resolver (`PytestNode` and subclasses) -/

/-- `PytestNode._convert_identifier_to_words`, step inserting a space before
every internal uppercase letter (regex `(?!^)([A-Z])`). -/
def insertSpacesAux : List Char → List Char
  | [] => []
  | c :: rest => (if c.isUpper then [' ', c] else [c]) ++ insertSpacesAux rest

/-- `PytestNode._convert_identifier_to_words`: underscores to spaces, a space
before each internal capital, whitespace normalised by `' '.join(s.split())`. -/
def convertIdentifierToWords (name : String) : String :=
  let replaced := name.data.map (fun c => if c == '_' then ' ' else c)
  let spaced :=
    match replaced with
    | [] => []
    | c :: rest => c :: insertSpacesAux rest
  String.intercalate " " (wordsOfAux spaced [])

/-- The common-word set of `PytestNode._lowercase_common_words`. -/
def commonWords : List String :=
  ["the", "a", "an", "and", "or", "but", "nor", "for", "yet", "so",
   "is", "are", "was", "were", "be", "been", "being",
   "has", "have", "had", "do", "does", "did",
   "in", "on", "at", "to", "of", "by", "with", "from", "as"]

/-- `PytestNode._lowercase_common_words`: keep the first word, lowercase the
common words among the rest. -/
def lowercaseCommonWords (text : String) : String :=
  match pySplitWords text with
  | [] => text
  | w :: ws =>
      String.intercalate " "
        (w :: ws.map (fun x => if commonWords.contains (lowerStr x) then lowerStr x else x))

/-- One iteration of `PytestNode._remove_test_prefixes`:
`re.sub(rf'^{p}\s+', '', text, flags=re.IGNORECASE)` for a literal
lowercase word `p`. -/
def stripPrefixOnce (p text : String) : String :=
  let n := p.data.length
  let rest := text.data.drop n
  if ((text.data.take n).map Char.toLower == p.data)
      && (match rest with | c :: _ => c.isWhitespace | [] => false) then
    String.mk (rest.dropWhile Char.isWhitespace)
  else
    text

/-- `PytestNode._remove_test_prefixes`: the configured prefixes are applied
one after the other, each anchored at the start. -/
def removeTestPrefixes (ps : List String) (text : String) : String :=
  ps.foldl (fun t p => stripPrefixOnce p t) text

/-- The `prefixes_to_remove` class attribute of each node class. -/
def prefixesToRemove : Variant → List String
  | Variant.testFile => ["test"]
  | Variant.describedObject => ["test", "describe"]
  | Variant.testContext => ["test", "with", "without", "when"]
  | Variant.test => ["test", "it"]

/-- `PytestNode._description_from_identifier`: convert to words, lowercase
common words, then remove the configured prefixes. -/
def descriptionFromIdentifier (v : Variant) (name : String) : String :=
  removeTestPrefixes (prefixesToRemove v) (lowercaseCommonWords (convertIdentifierToWords name))

/-- `PytestNode._description_from_docstring`: `None` and the empty string are
falsy; otherwise the first line, stripped. -/
def descriptionFromDocstring : Option String → Option String
  | none => none
  | some ds => if ds = "" then none else some (pyStrip (firstLine ds))

/-- Python truthiness of an optional string (`None` and `""` are falsy). -/
def truthyOpt : Option String → Option String
  | none => none
  | some s => if s = "" then none else some s

/-- `PytestNode.description`: decorator annotation if truthy, else the
docstring first line if truthy, else the identifier-derived description. -/
def description (d : NodeData) : String :=
  match truthyOpt d.annot with
  | some a => a
  | none =>
      match truthyOpt (descriptionFromDocstring d.docstring) with
      | some s => s
      | none => descriptionFromIdentifier d.variant d.name

/-- First character of the description, lowercased, `'x'` when empty
(`DescribedObject.description_prefix`). -/
def firstCharLower (s : String) : Char :=
  match s.data with
  | [] => 'x'
  | c :: _ => c.toLower

/-- `first_char in 'aeiou'`. -/
def isVowel (c : Char) : Bool :=
  c == 'a' || c == 'e' || c == 'i' || c == 'o' || c == 'u'

/-- `TestContext.description_prefix`: inspect the original name, checking
`without` before `when`, defaulting to `with`. -/
def ctxPrefixStr (name : String) : String :=
  let nl := lowerStr name
  if startsWithStr nl "without" then "without"
  else if startsWithStr nl "when" then "when"
  else "with"

/-- The `description_prefix` property of each node class: `None` on
`TestFile`/`Test`, the vowel-chosen article on `DescribedObject`, the
`with`/`without`/`when` word on `TestContext`. (Renamed from the source's
`description_prefix` for tooling reasons.) -/
def descPrefixStr (d : NodeData) : Option String :=
  match d.variant with
  | Variant.describedObject =>
      some (if isVowel (firstCharLower (description d)) then "an" else "a")
  | Variant.testContext => some (ctxPrefixStr d.name)
  | _ => none

/-- `description_with_prefix`: the base-class version returns the description
when the prefix is falsy and `f"{prefix} {description}"` otherwise;
`TestContext` overrides it to skip the prefix when the description already
starts with it. (Renamed from the source's `description_with_prefix` for
tooling reasons.) -/
def descriptionWithPrefixStr (d : NodeData) : String :=
  match d.variant with
  | Variant.testContext =>
      let p := ctxPrefixStr d.name
      let desc := description d
      if startsWithStr (lowerStr desc) (p ++ " ") || (lowerStr desc == p) then desc
      else p ++ " " ++ desc
  | _ =>
      match descPrefixStr d with
      | none => description d
      | some p => p ++ " " ++ description d

/-! ## Tree nodes with parent links

A `PNode` is a semantic node together with its ancestor chain, as produced by
the builder (children hold a reference to their parent). `PNode.root` models
`parent is None`; for a `testFile` node it also models the absence of the
`parent` attribute on `TestFile` objects. -/

inductive PNode where
  | root (d : NodeData)
  | child (d : NodeData) (p : PNode)

/-- The data carried by a node. -/
def dataOf : PNode → NodeData
  | PNode.root d => d
  | PNode.child d _ => d

/-- The parent reference (`None` for roots). -/
def parentOf : PNode → Option PNode
  | PNode.root _ => none
  | PNode.child _ p => some p

/-- Python object identity of a node, modelled by its `id` field. -/
def nodeId (n : PNode) : Nat :=
  (dataOf n).id

/-- `isinstance(node, TestFile)`. -/
def isTestFileNode (n : PNode) : Bool :=
  (dataOf n).variant == Variant.testFile

/-- Helper for `PytestNode.level`: walking up from a node that does have a
`parent` attribute, counting one per ancestor; a `TestFile` ancestor is
counted but stops the walk (it has no `parent` attribute). -/
def levelAux : PNode → Nat
  | PNode.root _ => 0
  | PNode.child _ p => if isTestFileNode p then 1 else levelAux p + 1

/-- `PytestNode.level`: depth computed by walking parent links (a `TestFile`
itself has no `parent` attribute, so its level is 0). -/
def level (n : PNode) : Nat :=
  if isTestFileNode n then 0 else levelAux n

/-- `Test._get_status_symbol`: glyph from the outcome string. -/
def statusSymbol (o : Option String) : String :=
  if o = some "passed" then "✓"
  else if o = some "failed" then "✗"
  else "»"

/-- `format_for_output` of the concrete node classes: test lines carry the
status symbol and the bare description, container lines the description with
prefix; both are indented by `"  " * level`. -/
def formatForOutput (n : PNode) : String :=
  match (dataOf n).variant with
  | Variant.test =>
      pyRepeat "  " (level n) ++ statusSymbol (dataOf n).outcome ++ " " ++ description (dataOf n)
  | _ =>
      pyRepeat "  " (level n) ++ descriptionWithPrefixStr (dataOf n)

/-- The ancestor-collection loop shared by `Test.get_parent_tree_string` and
`Test.get_new_parent_nodes_string`: walk up from the node's parent, list the
ancestors root-to-leaf; a `TestFile` is not listed and, having no `parent`
attribute, ends the walk. -/
def parentNodes : PNode → List PNode
  | PNode.root _ => []
  | PNode.child _ p => if isTestFileNode p then [] else parentNodes p ++ [p]

/-- The collected ancestors with the `isinstance(current, TestFile)` filter of
the source applied (redundant for chains the builder produces, kept for
fidelity). -/
def filteredAncestors (n : PNode) : List PNode :=
  (parentNodes n).filter (fun a => !(isTestFileNode a))

/-- The rendering loop `output += "\n" + node.format_for_output()`. -/
def renderLines (l : List PNode) : String :=
  String.join (l.map (fun a => "\n" ++ formatForOutput a))

/-- `Test.get_parent_tree_string`. -/
def getParentTreeString (n : PNode) : String :=
  match parentOf n with
  | none => ""
  | some _ => renderLines (filteredAncestors n)

/-- The common-prefix loop of `Test.get_new_parent_nodes_string`
(`if self_parents[i] is prev_parents[i]: common_depth = i + 1 else: break`),
comparing by object identity. -/
def commonDepth : List PNode → List PNode → Nat
  | x :: xs, y :: ys => if nodeId x = nodeId y then commonDepth xs ys + 1 else 0
  | _, _ => 0

/-- `Test.get_new_parent_nodes_string`: with no previous test, all parents;
otherwise only the parents past the identity-wise common prefix of the two
ancestor chains. -/
def getNewParentNodesString (n : PNode) : Option PNode → String
  | none => getParentTreeString n
  | some prev =>
      renderLines
        ((filteredAncestors n).drop (commonDepth (filteredAncestors n) (filteredAncestors prev)))

/-! ## Tree builder (`SemanticTreeBuilder`)

Raw pytest items are modelled as an arena of integer handles: `RawEnv` gives
every handle its metadata, and handle equality models Python object identity
(the dictionary key of `_node_cache`). Built nodes live in a growing arena
(`BuilderState.arena`); an index into it models the identity of a built node. -/

/-- The metadata the builder reads off a raw pytest item: its `name`
attribute (`None` possible), whether its `obj` is a `ModuleType`, and its
`parent` link. -/
structure RawInfo where
  name : Option String
  isModule : Bool
  parent : Option Nat
deriving DecidableEq

/-- The universe of raw pytest items, keyed by identity handles. -/
abbrev RawEnv := Nat → RawInfo

/-- The builder's node classes (`TestFile` is never created by the builder). -/
inductive BVariant where
  | bDescribedObject
  | bTestContext
  | bTest
deriving DecidableEq

/-- A built node: the raw item it wraps, its class, the stored
`_original_name`, the `parent` reference and the typed child lists. -/
structure BNode where
  rawId : Nat
  variant : BVariant
  origName : Option String
  parentIdx : Option Nat
  contexts : List Nat
  tests : List Nat
deriving DecidableEq

/-- The builder state: the arena of all nodes created so far and the
`_node_cache` dictionary mapping raw handles to node indices. -/
structure BuilderState where
  arena : List BNode
  cache : List (Nat × Nat)
deriving DecidableEq

/-- `SemanticTreeBuilder.__init__`: empty cache, nothing allocated. -/
def emptyBuilder : BuilderState := ⟨[], []⟩

/-- Dictionary lookup in `_node_cache` (insertions are prepended, so the
first hit is the most recent binding, matching `dict` assignment). -/
def cacheLookup : List (Nat × Nat) → Nat → Option Nat
  | [], _ => none
  | e :: rest, r => if e.1 = r then some e.2 else cacheLookup rest r

/-- The keys of the cache. -/
def cacheKeys (c : List (Nat × Nat)) : List Nat :=
  c.map Prod.fst

/-- In-place mutation of the node stored at one arena index. -/
def updateNode : List BNode → Nat → (BNode → BNode) → List BNode
  | [], _, _ => []
  | n :: rest, 0, f => f n :: rest
  | n :: rest, i + 1, f => n :: updateNode rest i f

/-- Read the node at an arena index. -/
def arenaGet (a : List BNode) (i : Nat) : Option BNode :=
  a.get? i

/-- `self.tests.append(test)` on a built node. -/
def pushTest (c : Nat) (n : BNode) : BNode :=
  ⟨n.rawId, n.variant, n.origName, n.parentIdx, n.contexts, n.tests ++ [c]⟩

/-- `self.contexts.append(context)` on a built node. -/
def pushContext (c : Nat) (n : BNode) : BNode :=
  ⟨n.rawId, n.variant, n.origName, n.parentIdx, n.contexts ++ [c], n.tests⟩

/-- `child.parent = self` on a built node. -/
def setParentIdx (p : Nat) (n : BNode) : BNode :=
  ⟨n.rawId, n.variant, n.origName, some p, n.contexts, n.tests⟩

/-- `add_test`: append the child to the parent's `tests` list and set the
child's `parent` reference. -/
def addTestLink (st : BuilderState) (p c : Nat) : BuilderState :=
  ⟨updateNode (updateNode st.arena p (pushTest c)) c (setParentIdx p), st.cache⟩

/-- `add_context`: append the child to the parent's `contexts` list and set
the child's `parent` reference. -/
def addContextLink (st : BuilderState) (p c : Nat) : BuilderState :=
  ⟨updateNode (updateNode st.arena p (pushContext c)) c (setParentIdx p), st.cache⟩

/-- `SemanticTreeBuilder._link_child_to_parent`: type dispatch; a pairing the
source does not handle leaves the state unchanged. -/
def linkChildToParent (st : BuilderState) (p c : Nat) : BuilderState :=
  match arenaGet st.arena c, arenaGet st.arena p with
  | some cn, some pn =>
      match cn.variant with
      | BVariant.bTest =>
          match pn.variant with
          | BVariant.bDescribedObject => addTestLink st p c
          | BVariant.bTestContext => addTestLink st p c
          | _ => st
      | BVariant.bTestContext =>
          match pn.variant with
          | BVariant.bDescribedObject => addContextLink st p c
          | BVariant.bTestContext => addContextLink st p c
          | _ => st
      | BVariant.bDescribedObject => st
  | _, _ => st

/-- The guard `if not hasattr(child_node, 'parent') or child_node.parent is
None` before linking. -/
def linkIfOrphan (st : BuilderState) (p c : Nat) : BuilderState :=
  match arenaGet st.arena c with
  | some cn => if cn.parentIdx = none then linkChildToParent st p c else st
  | none => st

/-- `SemanticTreeBuilder._create_node`: a node whose own parent is the module
scope becomes a `DescribedObject`, anything deeper a `TestContext`; with no
parent at all, a `DescribedObject`. -/
def createNode (env : RawEnv) (r : Nat) : BNode :=
  match (env r).parent with
  | some p =>
      if (env p).isModule then ⟨r, BVariant.bDescribedObject, (env r).name, none, [], []⟩
      else ⟨r, BVariant.bTestContext, (env r).name, none, [], []⟩
  | none => ⟨r, BVariant.bDescribedObject, (env r).name, none, [], []⟩

/-- The raw ancestor walk of `build_tree_for_test`
(`while parent_item and not isinstance(parent_item.obj, ModuleType)`),
bottom-to-top. `fuel` bounds the walk; any fuel at least the chain length
yields the full chain. -/
def rawChain (env : RawEnv) : Nat → Option Nat → List Nat
  | 0, _ => []
  | _ + 1, none => []
  | fuel + 1, some p =>
      if (env p).isModule then [] else p :: rawChain env fuel (env p).parent

/-- One iteration of the builder loop: fetch-or-create the parent node, link
the current child to it if the child has no parent yet, and continue with the
parent as the new child. -/
def buildStep (env : RawEnv) (acc : BuilderState × Nat) (p : Nat) : BuilderState × Nat :=
  match cacheLookup acc.1.cache p with
  | some i => (linkIfOrphan acc.1 i acc.2, i)
  | none =>
      let idx := acc.1.arena.length
      let st1 : BuilderState := ⟨acc.1.arena ++ [createNode env p], (p, idx) :: acc.1.cache⟩
      (linkIfOrphan st1 idx acc.2, idx)

/-- `build_tree_for_test` on a present raw item: allocate the `Test` node,
cache it, then walk the parent chain. Returns the test node's index and the
final state. -/
def buildCore (env : RawEnv) (fuel : Nat) (st : BuilderState) (t : Nat) : Nat × BuilderState :=
  let testIdx := st.arena.length
  let st1 : BuilderState :=
    ⟨st.arena ++ [⟨t, BVariant.bTest, (env t).name, none, [], []⟩], (t, testIdx) :: st.cache⟩
  let res := (rawChain env fuel (env t).parent).foldl (buildStep env) (st1, testIdx)
  (testIdx, res.1)

/-- `Test(None)` reads `item.name` off `None` and fails with Python's
`AttributeError`; the source defines no dedicated error for this. -/
inductive BuildError where
  | attributeError
deriving DecidableEq

/-- `SemanticTreeBuilder.build_tree_for_test`, with the possibility that the
argument is `None` made explicit. -/
def buildTreeForTest (env : RawEnv) (fuel : Nat) (st : BuilderState) :
    Option Nat → Except BuildError (Nat × BuilderState)
  | none => Except.error BuildError.attributeError
  | some t => Except.ok (buildCore env fuel st t)

/-- One `build_tree_for_test` call per collected test, as the plugin does
over the discovery order. -/
def buildMany (env : RawEnv) (fuel : Nat) (ts : List Nat) : BuilderState :=
  ts.foldl (fun s t => (buildCore env fuel s t).2) emptyBuilder

/-- The raw handles represented in the arena, in allocation order. -/
def rawIds (a : List BNode) : List Nat :=
  a.map (fun n => n.rawId)

/-- How many built nodes wrap the raw item `r`. -/
def rawNodeCount (st : BuilderState) (r : Nat) : Nat :=
  (rawIds st.arena).count r

/-! ## Decorators (`decorators.py`) -/

/-- The failure of `_apply_decorator` on a blank description. The source
raises Python's `ValueError("pyspec decorators require a non-empty
description")`; the specification's error taxonomy calls this condition
`EmptyDescriptionError`. -/
inductive DecoratorError where
  | emptyDescriptionError
deriving DecidableEq

/-- `_apply_decorator`: strip the description; reject a blank result at
annotation-set time, otherwise store the stripped text (the value later read
back as `NodeData.annot`). -/
def applyDecorator (txt : String) : Except DecoratorError String :=
  let cleaned := pyStrip txt
  if cleaned = "" then Except.error DecoratorError.emptyDescriptionError
  else Except.ok cleaned

/-! ## Specification-side rendering (for the refinement claim about
`format_for_output`) -/

/-- Modelled from the spec: the status glyph table (checkmark for passed,
cross for failed, chevron for anything else including unknown and skipped). -/
def specGlyph (o : Option String) : String :=
  if o = some "passed" then "✓"
  else if o = some "failed" then "✗"
  else "»"

/-- Modelled from the spec: `render_line()` as the spec words it — two
space characters per depth level, then glyph-space-description for tests and
the prefixed description for containers. Compared against the source-derived
`formatForOutput`. -/
def specRenderLine (n : PNode) : String :=
  match (dataOf n).variant with
  | Variant.test =>
      String.mk (List.replicate (2 * level n) ' ') ++ specGlyph (dataOf n).outcome
        ++ " " ++ description (dataOf n)
  | _ =>
      String.mk (List.replicate (2 * level n) ' ') ++ descriptionWithPrefixStr (dataOf n)

/-! ## Concrete scenario data -/

/-- A context class named `WithoutEnergySupply` with no docstring and no
annotation. -/
def cexContextNode : NodeData := ⟨11, Variant.testContext, "WithoutEnergySupply", none, none, none⟩

/-- A described-object class whose docstring first line is `with options`. -/
def cexDescribedNode : NodeData := ⟨10, Variant.describedObject, "DescribeCar", some "with options", none, none⟩

/-- A test function named `test_it_works` with no docstring. -/
def cexTestNodeA : NodeData := ⟨12, Variant.test, "test_it_works", none, none, none⟩

/-- A described-object node with an annotated description `Example`. -/
def dExNode : NodeData := ⟨106, Variant.describedObject, "DescribeThing", none, some "Example", none⟩

/-- Shared described-object ancestor `A` of the incremental-rendering
scenario. -/
def rootAEx : PNode := PNode.root ⟨1, Variant.describedObject, "TestCar", none, none, none⟩

/-- Context `B` under `A` (ancestor of the previous test only). -/
def ctxBEx : PNode := PNode.child ⟨2, Variant.testContext, "WithDiesel", none, none, none⟩ rootAEx

/-- Context `C` under `A` (ancestor of the current test only). -/
def ctxCEx : PNode := PNode.child ⟨3, Variant.testContext, "WithElectric", none, none, none⟩ rootAEx

/-- The previously rendered test, with ancestor chain `[A, B]`. -/
def prevTestEx : PNode := PNode.child ⟨4, Variant.test, "test_one", none, none, some "passed"⟩ ctxBEx

/-- The current test, with ancestor chain `[A, C]`. -/
def curTestEx : PNode := PNode.child ⟨5, Variant.test, "test_two", none, none, none⟩ ctxCEx

/-- Raw items for the sharing scenario: handle 0 is the module, handle 1 a
class under it, handles 2 and 3 test functions inside that class. -/
def envSharedEx : RawEnv := fun i =>
  if i = 0 then ⟨some "m", true, none⟩
  else if i = 1 then ⟨some "c", false, some 0⟩
  else ⟨some "t", false, some 1⟩

/-- Raw items whose `name` attribute is `None` (no identity). -/
def envNullNameEx : RawEnv := fun _ => ⟨none, false, none⟩

/-! ## Builder invariant -/

/-- Invariant carried through a run of the builder: no raw handle is wrapped
by two arena nodes, every wrapped handle is a cache key, and every wrapped
handle belongs to the allowed set `used`. -/
def BuilderInv (st : BuilderState) (used : Nat → Prop) : Prop :=
  (rawIds st.arena).Nodup ∧
  (∀ r, r ∈ rawIds st.arena → r ∈ cacheKeys st.cache) ∧
  (∀ r, r ∈ rawIds st.arena → used r)

/-! ## Helper lemmas -/

/-- `"an "` is a prefix of `"an " ++ D` for every `D`. -/
theorem startsWith_an_of_an (D : String) : startsWithStr ("an " ++ D) "an " = true := by
  have h : ("an " ++ D).data = 'a' :: 'n' :: ' ' :: D.data := by
    cases D
    rfl
  simp [startsWithStr, h, List.isPrefixOf_cons₂]

/-- `"an "` is never a prefix of `"a " ++ D`. -/
theorem startsWith_an_of_a (D : String) : startsWithStr ("a " ++ D) "an " = false := by
  have h : ("a " ++ D).data = 'a' :: ' ' :: D.data := by
    cases D
    rfl
  have hn : ('n' == ' ') = false := by decide
  simp [startsWithStr, h, List.isPrefixOf_cons₂, hn]

/-- Python `"  " * n` is `2 * n` space characters. -/
theorem pyRepeat_two_space : ∀ n : Nat, pyRepeat "  " n = String.mk (List.replicate (2 * n) ' ') := by
  intro n
  induction n with
  | zero => rfl
  | succ k ih =>
      show "  " ++ pyRepeat "  " k = String.mk (List.replicate (2 * (k + 1)) ' ')
      rw [ih]
      rfl

/-- The identity-wise common-prefix loop returns the full length on chains
with equal identity lists. -/
theorem commonDepth_eq_length :
    ∀ xs ys : List PNode, xs.map nodeId = ys.map nodeId → commonDepth xs ys = xs.length := by
  intro xs
  induction xs with
  | nil => intro ys _; cases ys <;> rfl
  | cons x xs ih =>
      intro ys h
      cases ys with
      | nil => simp at h
      | cons y ys =>
          simp only [List.map_cons, List.cons.injEq] at h
          show commonDepth (x :: xs) (y :: ys) = xs.length + 1
          simp [commonDepth, h.1, ih ys h.2]

/-! ## C1: description priority -/

/-- C1: the resolved description follows the priority order annotation over
docstring over identifier: a truthy annotation is returned verbatim; failing
that, a truthy stripped docstring first line; failing that, the
identifier-derived description. A Test node with docstring
`"has third floor\n"` resolves to `has third floor` whatever its identifier,
and a described object named `DescribeCombustionThing` carrying annotation
`Electric Car` renders as `an Electric Car` whatever its docstring. -/
theorem description_priority :
    (∀ (d : NodeData) (a : String), d.annot = some a → a ≠ "" → description d = a) ∧
    (∀ (d : NodeData) (s : String), truthyOpt d.annot = none →
      truthyOpt (descriptionFromDocstring d.docstring) = some s → description d = s) ∧
    (∀ d : NodeData, truthyOpt d.annot = none →
      truthyOpt (descriptionFromDocstring d.docstring) = none →
      description d = descriptionFromIdentifier d.variant d.name) ∧
    (∀ (name : String) (i : Nat) (oc : Option String),
      description ⟨i, Variant.test, name, some "has third floor\n", none, oc⟩ = "has third floor") ∧
    (∀ (doc : Option String) (i : Nat) (oc : Option String),
      descriptionWithPrefixStr
        ⟨i, Variant.describedObject, "DescribeCombustionThing", doc, some "Electric Car", oc⟩ =
        "an Electric Car") := by
  refine ⟨?_, ?_, ?_, ?_, ?_⟩
  · intro d a ha hne
    simp [description, ha, truthyOpt, hne]
  · intro d s h1 h2
    simp [description, h1, h2]
  · intro d h1 h2
    simp [description, h1, h2]
  · intro name i oc
    rfl
  · intro doc i oc
    rfl

/-- Witness for C1 at concrete nodes. -/
theorem description_priority_witness :
    description ⟨100, Variant.test, "test_ignored", none, some "Quacks", none⟩ = "Quacks" ∧
    description ⟨101, Variant.test, "test_ignored", some "doc line\n", none, none⟩ = "doc line" ∧
    description ⟨102, Variant.test, "test_do_thing", none, none, none⟩ =
      descriptionFromIdentifier Variant.test "test_do_thing" :=
  ⟨description_priority.1 _ "Quacks" rfl (by decide),
   description_priority.2.1 _ "doc line" rfl rfl,
   description_priority.2.2.1 _ rfl rfl⟩

/-! ## C8: decorator annotation validation -/

/-- C8: setting an explicit description annotation to a whitespace-only
string fails at annotation-set time; a non-blank annotation is stored
whitespace-trimmed, and resolving a node carrying a stored annotation
returns it without any error. -/
theorem decorator_empty_description :
    (∀ txt : String, pyStrip txt = "" →
      applyDecorator txt = Except.error DecoratorError.emptyDescriptionError) ∧
    (∀ txt : String, pyStrip txt ≠ "" → applyDecorator txt = Except.ok (pyStrip txt)) ∧
    (∀ txt c : String, applyDecorator txt = Except.ok c →
      ∀ (i : Nat) (v : Variant) (name : String) (doc oc : Option String),
        description ⟨i, v, name, doc, some c, oc⟩ = c) := by
  refine ⟨?_, ?_, ?_⟩
  · intro txt h
    simp [applyDecorator, h]
  · intro txt h
    simp [applyDecorator, h]
  · intro txt c h i v name doc oc
    unfold applyDecorator at h
    by_cases hc : pyStrip txt = ""
    · simp [hc] at h
    · simp only [if_neg hc, Except.ok.injEq] at h
      have hcc : c ≠ "" := by
        rw [← h]
        exact hc
      simp [description, truthyOpt, hcc]

/-- Witness for C8 at concrete annotations. -/
theorem decorator_empty_description_witness :
    applyDecorator "   " = Except.error DecoratorError.emptyDescriptionError ∧
    applyDecorator " Electric Car " = Except.ok "Electric Car" ∧
    description ⟨103, Variant.describedObject, "DescribeCombustionThing", none,
      some "Electric Car", none⟩ = "Electric Car" := by
  have h2 : applyDecorator " Electric Car " = Except.ok "Electric Car" := by
    rw [decorator_empty_description.2.1 " Electric Car " (by decide)]
    exact congrArg Except.ok (by decide)
  exact ⟨decorator_empty_description.1 "   " (by decide), h2,
    decorator_empty_description.2.2 " Electric Car " "Electric Car" h2 103
      Variant.describedObject "DescribeCombustionThing" none none⟩

/-! ## C10: empty description on a described object -/

/-- C10: a described-object node whose resolved description is empty gets the
article `a` (the empty description counts as starting with the placeholder
non-vowel `x`), so the rendered description is exactly the string `"a "`. -/
theorem empty_description_article :
    ∀ d : NodeData, d.variant = Variant.describedObject → description d = "" →
      descriptionWithPrefixStr d = "a " := by
  intro d hv hd
  obtain ⟨i, v, nm, doc, an, oc⟩ := d
  simp only at hv
  subst hv
  have hr : descriptionWithPrefixStr ⟨i, Variant.describedObject, nm, doc, an, oc⟩ =
      (if isVowel (firstCharLower (description ⟨i, Variant.describedObject, nm, doc, an, oc⟩))
        then "an" else "a") ++ " " ++ description ⟨i, Variant.describedObject, nm, doc, an, oc⟩ := rfl
  rw [hr, hd]
  rfl

/-- Witness for C10: an anonymous described object renders as `"a "`. -/
theorem empty_description_article_witness :
    descriptionWithPrefixStr ⟨104, Variant.describedObject, "", none, none, none⟩ = "a " :=
  empty_description_article ⟨104, Variant.describedObject, "", none, none, none⟩ rfl (by decide)

/-! ## C6: identifier prefix stripping -/

/-- C6 counterexample: prefix stripping is not limited to one leading prefix
word. For the Test identifier `test_it_works` the configured list
`["test", "it"]` is applied sequentially, so after `test` is stripped the
remaining leading word `it` is stripped too: the description is `works`, not
`it works` as the claim requires. -/
theorem prefix_strip_multiple_cex :
    description cexTestNodeA = "works" ∧ description cexTestNodeA ≠ "it works" := by
  constructor
  · decide
  · decide

/-- C6 amended: stripping applies the variant's configured prefixes one
after the other, in list order, each removing at most one leading occurrence
(case-insensitively, followed by whitespace). A leading word equal to a
later prefix in the list is therefore also stripped (`test_it_works`), while
a repeated occurrence of the same prefix survives (`test_test_works` keeps
its second `test`); `test_do_something` still resolves to `do something`. -/
theorem prefix_strip_sequential :
    (∀ (ps : List String) (p text : String),
      removeTestPrefixes (p :: ps) text = removeTestPrefixes ps (stripPrefixOnce p text)) ∧
    (description ⟨13, Variant.test, "test_do_something", none, none, none⟩ = "do something") ∧
    (description ⟨14, Variant.test, "test_test_works", none, none, none⟩ = "test works") ∧
    (∀ (i : Nat) (v : Variant) (name : String) (oc : Option String),
      description ⟨i, v, name, none, none, oc⟩ =
        removeTestPrefixes (prefixesToRemove v)
          (lowercaseCommonWords (convertIdentifierToWords name))) := by
  refine ⟨fun ps p text => rfl, by decide, by decide, fun i v name oc => rfl⟩

/-! ## C5: article selection on described objects -/

/-- C5 counterexample: the article is not skipped when a described object's
description already begins with `with`. The node with docstring
`with options` resolves to description `with options` but renders as
`a with options`, not as the bare `with options` the claim requires. -/
theorem described_article_not_skipped_cex :
    description cexDescribedNode = "with options" ∧
    descriptionWithPrefixStr cexDescribedNode = "a with options" ∧
    descriptionWithPrefixStr cexDescribedNode ≠ "with options" := by
  refine ⟨by decide, by decide, by decide⟩

/-- C5 amended: for every described-object node, with no exception for
descriptions beginning with `with`/`without`, the rendered description is
the description preceded by an article and a space, `an` exactly when the
first character of the description is a lowercase-insensitive vowel and `a`
otherwise; consequently it starts with `"an "` iff that vowel test holds. -/
theorem described_article_total :
    ∀ d : NodeData, d.variant = Variant.describedObject →
      (descriptionWithPrefixStr d =
        (if isVowel (firstCharLower (description d)) then "an" else "a") ++ " " ++ description d) ∧
      (startsWithStr (descriptionWithPrefixStr d) "an " = true ↔
        isVowel (firstCharLower (description d)) = true) := by
  intro d hv
  obtain ⟨i, v, nm, doc, an, oc⟩ := d
  simp only at hv
  subst hv
  have hr : descriptionWithPrefixStr ⟨i, Variant.describedObject, nm, doc, an, oc⟩ =
      (if isVowel (firstCharLower (description ⟨i, Variant.describedObject, nm, doc, an, oc⟩))
        then "an" else "a") ++ " " ++ description ⟨i, Variant.describedObject, nm, doc, an, oc⟩ := rfl
  refine ⟨hr, ?_⟩
  rw [hr]
  by_cases h : isVowel (firstCharLower (description ⟨i, Variant.describedObject, nm, doc, an, oc⟩)) = true
  · simp [h, startsWith_an_of_an]
  · rw [if_neg h]
    simp [startsWith_an_of_a, h]

/-- Witness for C5 at a concrete annotated described object. -/
theorem described_article_total_witness :
    startsWithStr (descriptionWithPrefixStr dExNode) "an " = true :=
  (described_article_total dExNode rfl).2.mpr (by decide)

/-! ## C4: context prefix selection -/

/-- C4 counterexample: the context class `WithoutEnergySupply` with no
docstring renders as `without Energy Supply` — the non-common words keep
their capitalization — not as the all-lowercase `without energy supply` the
claim requires. -/
theorem context_capitalization_cex :
    descriptionWithPrefixStr cexContextNode = "without Energy Supply" ∧
    descriptionWithPrefixStr cexContextNode ≠ "without energy supply" := by
  refine ⟨by decide, by decide⟩

/-- C4 amended: a context node prepends exactly one of `with`/`without`/
`when`, chosen by checking the lowercased original identifier for the
leading text `without`, then `when`, defaulting to `with`; the prepend is
skipped when the resolved description already starts with the chosen word;
and `WithoutEnergySupply` with no docstring renders as
`without Energy Supply` (capitalization preserved), which begins with
`"without "` and not with `"with "`. -/
theorem context_prefix_selection :
    (∀ name : String,
      ctxPrefixStr name = "without" ∨ ctxPrefixStr name = "when" ∨ ctxPrefixStr name = "with") ∧
    (∀ name : String, startsWithStr (lowerStr name) "without" = true →
      ctxPrefixStr name = "without") ∧
    (∀ name : String, startsWithStr (lowerStr name) "without" = false →
      startsWithStr (lowerStr name) "when" = true → ctxPrefixStr name = "when") ∧
    (∀ name : String, startsWithStr (lowerStr name) "without" = false →
      startsWithStr (lowerStr name) "when" = false → ctxPrefixStr name = "with") ∧
    (∀ d : NodeData, d.variant = Variant.testContext →
      descriptionWithPrefixStr d = description d ∨
      descriptionWithPrefixStr d = ctxPrefixStr d.name ++ " " ++ description d) ∧
    (∀ d : NodeData, d.variant = Variant.testContext →
      (startsWithStr (lowerStr (description d)) (ctxPrefixStr d.name ++ " ") = true ∨
        lowerStr (description d) = ctxPrefixStr d.name) →
      descriptionWithPrefixStr d = description d) ∧
    (descriptionWithPrefixStr cexContextNode = "without Energy Supply" ∧
      startsWithStr (descriptionWithPrefixStr cexContextNode) "without " = true ∧
      startsWithStr (descriptionWithPrefixStr cexContextNode) "with " = false) := by
  refine ⟨?_, ?_, ?_, ?_, ?_, ?_, by decide, by decide, by decide⟩
  · intro name
    unfold ctxPrefixStr
    by_cases h1 : startsWithStr (lowerStr name) "without" = true
    · simp [h1]
    · by_cases h2 : startsWithStr (lowerStr name) "when" = true
      · simp [h1, h2]
      · simp [h1, h2]
  · intro name h
    simp [ctxPrefixStr, h]
  · intro name h1 h2
    simp [ctxPrefixStr, h1, h2]
  · intro name h1 h2
    simp [ctxPrefixStr, h1, h2]
  · intro d hv
    obtain ⟨i, v, nm, doc, an, oc⟩ := d
    simp only at hv
    subst hv
    have hr : descriptionWithPrefixStr ⟨i, Variant.testContext, nm, doc, an, oc⟩ =
        (if startsWithStr (lowerStr (description ⟨i, Variant.testContext, nm, doc, an, oc⟩))
              (ctxPrefixStr nm ++ " ")
            || (lowerStr (description ⟨i, Variant.testContext, nm, doc, an, oc⟩) == ctxPrefixStr nm)
          then description ⟨i, Variant.testContext, nm, doc, an, oc⟩
          else ctxPrefixStr nm ++ " " ++ description ⟨i, Variant.testContext, nm, doc, an, oc⟩) := rfl
    rw [hr]
    by_cases h : (startsWithStr (lowerStr (description ⟨i, Variant.testContext, nm, doc, an, oc⟩))
          (ctxPrefixStr nm ++ " ")
        || (lowerStr (description ⟨i, Variant.testContext, nm, doc, an, oc⟩) == ctxPrefixStr nm)) = true
    · rw [if_pos h]
      exact Or.inl rfl
    · rw [if_neg (by simpa using h)]
      exact Or.inr rfl
  · intro d hv hcond
    obtain ⟨i, v, nm, doc, an, oc⟩ := d
    simp only at hv hcond
    subst hv
    have hr : descriptionWithPrefixStr ⟨i, Variant.testContext, nm, doc, an, oc⟩ =
        (if startsWithStr (lowerStr (description ⟨i, Variant.testContext, nm, doc, an, oc⟩))
              (ctxPrefixStr nm ++ " ")
            || (lowerStr (description ⟨i, Variant.testContext, nm, doc, an, oc⟩) == ctxPrefixStr nm)
          then description ⟨i, Variant.testContext, nm, doc, an, oc⟩
          else ctxPrefixStr nm ++ " " ++ description ⟨i, Variant.testContext, nm, doc, an, oc⟩) := rfl
    rw [hr]
    have hcondb : (startsWithStr (lowerStr (description ⟨i, Variant.testContext, nm, doc, an, oc⟩))
          (ctxPrefixStr nm ++ " ")
        || (lowerStr (description ⟨i, Variant.testContext, nm, doc, an, oc⟩) == ctxPrefixStr nm)) = true := by
      rcases hcond with h | h
      · simp [h]
      · simp [h]
    rw [if_pos hcondb]

/-- Witness for C4: the cascade picks `without` for `WithoutEnergySupply`,
and an already-prefixed description is left alone. -/
theorem context_prefix_selection_witness :
    ctxPrefixStr "WithoutEnergySupply" = "without" ∧
    descriptionWithPrefixStr ⟨105, Variant.testContext, "xyz", none, some "with power", none⟩ =
      "with power" := by
  constructor
  · exact context_prefix_selection.2.1 "WithoutEnergySupply" (by decide)
  · exact context_prefix_selection.2.2.2.2.2.1
      ⟨105, Variant.testContext, "xyz", none, some "with power", none⟩ rfl (Or.inl (by decide))

/-! ## C7: rendered line format -/

/-- C7: every rendered line matches the spec's format exactly — two space
characters per depth level, then for a Test node the status glyph (checkmark
for passed, cross for failed, chevron for anything else including unknown
and skipped), one space and the description, and for a container node the
prefixed description with no glyph. -/
theorem render_line_format : ∀ n : PNode, formatForOutput n = specRenderLine n := by
  intro n
  unfold formatForOutput specRenderLine statusSymbol specGlyph
  cases h : (dataOf n).variant <;> simp [h, pyRepeat_two_space]

/-! ## C2: incremental transition rendering -/

/-- C2: with no previous test, one line per (root-scope-excluded) ancestor,
each preceded by a line break, root-to-leaf; with a previous test, only the
ancestors strictly past the identity-wise longest common prefix of the two
chains; identical chains produce no output; and for previous chain `[A, B]`
against current chain `[A, C]` exactly `C`'s line is emitted. -/
theorem render_transition_incremental :
    (∀ n : PNode, getNewParentNodesString n none =
      String.join ((filteredAncestors n).map (fun a => "\n" ++ formatForOutput a))) ∧
    (∀ n prev : PNode, getNewParentNodesString n (some prev) =
      String.join
        (((filteredAncestors n).drop
            (commonDepth (filteredAncestors n) (filteredAncestors prev))).map
          (fun a => "\n" ++ formatForOutput a))) ∧
    (∀ n prev : PNode,
      (filteredAncestors n).map nodeId = (filteredAncestors prev).map nodeId →
      getNewParentNodesString n (some prev) = "") ∧
    (getNewParentNodesString curTestEx (some prevTestEx) = "\n" ++ formatForOutput ctxCEx) := by
  refine ⟨?_, fun n prev => rfl, ?_, by decide⟩
  · intro n
    cases n with
    | root d => rfl
    | child d p => rfl
  · intro n prev h
    show renderLines
        ((filteredAncestors n).drop (commonDepth (filteredAncestors n) (filteredAncestors prev))) = ""
    rw [commonDepth_eq_length _ _ h, List.drop_length]
    rfl

/-- Witness for C2: a test compared against itself has identical chains and
renders no transition output. -/
theorem render_transition_incremental_witness :
    getNewParentNodesString curTestEx (some curTestEx) = "" :=
  render_transition_incremental.2.2.1 curTestEx curTestEx rfl

/-! ## Builder lemmas -/

/-- A failed cache lookup means the key is absent. -/
theorem cacheLookup_none_not_mem :
    ∀ (c : List (Nat × Nat)) (r : Nat), cacheLookup c r = none → r ∉ cacheKeys c := by
  intro c
  induction c with
  | nil =>
      intro r _ hmem
      simp [cacheKeys] at hmem
  | cons e rest ih =>
      intro r h hmem
      unfold cacheLookup at h
      by_cases he : e.1 = r
      · rw [if_pos he] at h
        exact Option.noConfusion h
      · rw [if_neg he] at h
        have hk : cacheKeys (e :: rest) = e.1 :: cacheKeys rest := rfl
        rw [hk] at hmem
        rcases List.mem_cons.mp hmem with h1 | h2
        · exact he h1.symm
        · exact ih r h h2

/-- Updating a node with a `rawId`-preserving function leaves the arena's
raw-id listing unchanged. -/
theorem updateNode_rawIds :
    ∀ (a : List BNode) (i : Nat) (f : BNode → BNode),
      (∀ n, (f n).rawId = n.rawId) → rawIds (updateNode a i f) = rawIds a := by
  intro a
  induction a with
  | nil => intro i f _; rfl
  | cons n rest ih =>
      intro i f h
      cases i with
      | zero => simp [updateNode, rawIds, h]
      | succ j =>
          show n.rawId :: rawIds (updateNode rest j f) = n.rawId :: rawIds rest
          rw [ih j f h]

/-- `add_test` changes neither the raw-id listing nor the cache. -/
theorem addTestLink_preserves (st : BuilderState) (p c : Nat) :
    rawIds (addTestLink st p c).arena = rawIds st.arena ∧ (addTestLink st p c).cache = st.cache := by
  constructor
  · show rawIds (updateNode (updateNode st.arena p (pushTest c)) c (setParentIdx p)) = rawIds st.arena
    rw [updateNode_rawIds _ c (setParentIdx p) (fun n => rfl),
      updateNode_rawIds _ p (pushTest c) (fun n => rfl)]
  · rfl

/-- `add_context` changes neither the raw-id listing nor the cache. -/
theorem addContextLink_preserves (st : BuilderState) (p c : Nat) :
    rawIds (addContextLink st p c).arena = rawIds st.arena ∧
      (addContextLink st p c).cache = st.cache := by
  constructor
  · show rawIds (updateNode (updateNode st.arena p (pushContext c)) c (setParentIdx p)) =
      rawIds st.arena
    rw [updateNode_rawIds _ c (setParentIdx p) (fun n => rfl),
      updateNode_rawIds _ p (pushContext c) (fun n => rfl)]
  · rfl

/-- `_link_child_to_parent` changes neither the raw-id listing nor the
cache. -/
theorem linkChildToParent_preserves (st : BuilderState) (p c : Nat) :
    rawIds (linkChildToParent st p c).arena = rawIds st.arena ∧
      (linkChildToParent st p c).cache = st.cache := by
  unfold linkChildToParent
  cases arenaGet st.arena c with
  | none => exact ⟨rfl, rfl⟩
  | some cn =>
      cases arenaGet st.arena p with
      | none => exact ⟨rfl, rfl⟩
      | some pn =>
          obtain ⟨cr, cv, cno, cpi, ccx, cts⟩ := cn
          obtain ⟨pr, pv, pno, ppi, pcx, pts⟩ := pn
          cases cv <;> cases pv <;>
            first
              | exact ⟨rfl, rfl⟩
              | exact addTestLink_preserves st p c
              | exact addContextLink_preserves st p c

/-- The guarded link changes neither the raw-id listing nor the cache. -/
theorem linkIfOrphan_preserves (st : BuilderState) (p c : Nat) :
    rawIds (linkIfOrphan st p c).arena = rawIds st.arena ∧
      (linkIfOrphan st p c).cache = st.cache := by
  unfold linkIfOrphan
  split <;>
    first
      | exact ⟨rfl, rfl⟩
      | (split <;>
          first
            | exact linkChildToParent_preserves st p c
            | exact ⟨rfl, rfl⟩)

/-- The invariant transports along states with equal raw-id listings and
caches. -/
theorem inv_of_eq {st st' : BuilderState} {used : Nat → Prop}
    (h1 : rawIds st'.arena = rawIds st.arena) (h2 : st'.cache = st.cache)
    (h : BuilderInv st used) : BuilderInv st' used := by
  obtain ⟨ha, hb, hc⟩ := h
  refine ⟨by rw [h1]; exact ha, ?_, ?_⟩
  · intro r hr
    rw [h1] at hr
    rw [h2]
    exact hb r hr
  · intro r hr
    rw [h1] at hr
    exact hc r hr

/-- The invariant is monotone in the allowed set. -/
theorem inv_mono {st : BuilderState} {used usedB : Nat → Prop}
    (himp : ∀ r, used r → usedB r) (h : BuilderInv st used) : BuilderInv st usedB :=
  ⟨h.1, h.2.1, fun r hr => himp r (h.2.2 r hr)⟩

/-- Allocating a fresh node for an unseen raw handle and caching it
preserves the invariant. -/
theorem inv_alloc {st : BuilderState} {used : Nat → Prop} (node : BNode) (r : Nat)
    (hid : node.rawId = r) (hfresh : r ∉ rawIds st.arena) (hused : used r)
    (h : BuilderInv st used) :
    BuilderInv ⟨st.arena ++ [node], (r, st.arena.length) :: st.cache⟩ used := by
  obtain ⟨hnd, hcomp, hus⟩ := h
  have hids : rawIds (st.arena ++ [node]) = rawIds st.arena ++ [r] := by
    simp [rawIds, hid]
  refine ⟨?_, ?_, ?_⟩
  · show (rawIds (st.arena ++ [node])).Nodup
    rw [hids]
    refine List.nodup_append.mpr ⟨hnd, List.nodup_singleton r, ?_⟩
    intro x hx hx2
    rw [List.mem_singleton] at hx2
    subst hx2
    exact hfresh hx
  · intro x hx
    rw [show rawIds (⟨st.arena ++ [node], (r, st.arena.length) :: st.cache⟩ : BuilderState).arena
          = rawIds st.arena ++ [r] from hids] at hx
    have hk : cacheKeys ((r, st.arena.length) :: st.cache) = r :: cacheKeys st.cache := rfl
    rw [hk]
    rcases List.mem_append.mp hx with h1 | h2
    · exact List.mem_cons_of_mem r (hcomp x h1)
    · rw [List.mem_singleton] at h2
      subst h2
      exact List.mem_cons_self x _
  · intro x hx
    rw [show rawIds (⟨st.arena ++ [node], (r, st.arena.length) :: st.cache⟩ : BuilderState).arena
          = rawIds st.arena ++ [r] from hids] at hx
    rcases List.mem_append.mp hx with h1 | h2
    · exact hus x h1
    · rw [List.mem_singleton] at h2
      subst h2
      exact hused

/-- `_create_node` wraps exactly the handle it is given. -/
theorem createNode_rawId (env : RawEnv) (p : Nat) : (createNode env p).rawId = p := by
  unfold createNode
  (repeat' split) <;> rfl

/-- One builder-loop iteration preserves the invariant when the visited raw
handle is in the allowed set. -/
theorem buildStep_inv (env : RawEnv) {used : Nat → Prop} (st : BuilderState) (c p : Nat)
    (h : BuilderInv st used) (hp : used p) : BuilderInv (buildStep env (st, c) p).1 used := by
  unfold buildStep
  cases hc : cacheLookup st.cache p with
  | some i =>
      exact inv_of_eq (linkIfOrphan_preserves st i c).1 (linkIfOrphan_preserves st i c).2 h
  | none =>
      have hfresh : p ∉ rawIds st.arena := fun hmem =>
        cacheLookup_none_not_mem st.cache p hc (h.2.1 p hmem)
      have h1 := inv_alloc (createNode env p) p (createNode_rawId env p) hfresh hp h
      exact inv_of_eq (linkIfOrphan_preserves _ st.arena.length c).1
        (linkIfOrphan_preserves _ st.arena.length c).2 h1

/-- The whole parent-chain walk preserves the invariant. -/
theorem foldl_buildStep_inv (env : RawEnv) {used : Nat → Prop} :
    ∀ (chain : List Nat) (st : BuilderState) (c : Nat),
      BuilderInv st used → (∀ p ∈ chain, used p) →
      BuilderInv ((chain.foldl (buildStep env) (st, c)).1) used := by
  intro chain
  induction chain with
  | nil => intro st c h _; exact h
  | cons p rest ih =>
      intro st c h hall
      rw [List.foldl_cons]
      rcases hb : buildStep env (st, c) p with ⟨stB, cB⟩
      have h1 : BuilderInv stB used := by
        have h2 := buildStep_inv env st c p h (hall p (List.mem_cons_self p rest))
        rw [hb] at h2
        exact h2
      exact ih stB cB h1 (fun q hq => hall q (List.mem_cons_of_mem p hq))

/-- One `build_tree_for_test` call preserves the invariant when the test
handle is fresh and the handles visited are allowed. -/
theorem buildCore_inv (env : RawEnv) (fuel : Nat) {used : Nat → Prop} (st : BuilderState)
    (t : Nat) (h : BuilderInv st used) (hfresh : t ∉ rawIds st.arena) (ht : used t)
    (hchain : ∀ p ∈ rawChain env fuel ((env t).parent), used p) :
    BuilderInv (buildCore env fuel st t).2 used := by
  unfold buildCore
  exact foldl_buildStep_inv env _ _ _
    (inv_alloc ⟨t, BVariant.bTest, (env t).name, none, [], []⟩ t rfl hfresh ht h) hchain

/-- The invariant holds after any run of builds for pairwise-distinct tests
that never appear inside an ancestor chain. -/
theorem buildMany_aux (env : RawEnv) (fuel : Nat) :
    ∀ (ts : List Nat) (st : BuilderState) (used : Nat → Prop),
      BuilderInv st used → ts.Nodup → (∀ t ∈ ts, ¬ used t) →
      (∀ t ∈ ts, ∀ tt ∈ ts, t ∉ rawChain env fuel ((env tt).parent)) →
      ∃ u : Nat → Prop, BuilderInv (ts.foldl (fun s t => (buildCore env fuel s t).2) st) u := by
  intro ts
  induction ts with
  | nil => intro st used h _ _ _; exact ⟨used, h⟩
  | cons t rest ih =>
      intro st used h hnd hnu hcross
      rw [List.foldl_cons]
      have h1 : BuilderInv ((buildCore env fuel st t).2)
          (fun r => used r ∨ r = t ∨ r ∈ rawChain env fuel ((env t).parent)) := by
        apply buildCore_inv env fuel st t
        · exact inv_mono (fun r hr => Or.inl hr) h
        · intro hmem
          exact hnu t (List.mem_cons_self t rest) (h.2.2 t hmem)
        · exact Or.inr (Or.inl rfl)
        · intro p hp
          exact Or.inr (Or.inr hp)
      apply ih _ _ h1
      · exact (List.nodup_cons.mp hnd).2
      · intro x hx hux
        rcases hux with hu | hx2 | hx3
        · exact hnu x (List.mem_cons_of_mem t hx) hu
        · exact (List.nodup_cons.mp hnd).1 (hx2 ▸ hx)
        · exact hcross x (List.mem_cons_of_mem t hx) t (List.mem_cons_self t rest) hx3
      · intro x hx y hy
        exact hcross x (List.mem_cons_of_mem t hx) y (List.mem_cons_of_mem t hy)

/-! ## C3: memoization of built nodes -/

/-- C3: over the lifetime of one builder driven by one build call per
distinct discovered test (tests never occurring inside an ancestor chain),
every raw handle is wrapped by at most one built node; in the concrete
shared-ancestor scenario the two test nodes built by two separate calls
point to the identical arena node for their common class. -/
theorem builder_memoizes_nodes :
    (∀ (env : RawEnv) (fuel : Nat) (ts : List Nat), ts.Nodup →
      (∀ t ∈ ts, ∀ tt ∈ ts, t ∉ rawChain env fuel ((env tt).parent)) →
      ∀ r, rawNodeCount (buildMany env fuel ts) r ≤ 1) ∧
    ((arenaGet (buildMany envSharedEx 10 [2, 3]).arena 0).map (fun n => n.parentIdx) =
        some (some 1) ∧
      (arenaGet (buildMany envSharedEx 10 [2, 3]).arena 2).map (fun n => n.parentIdx) =
        some (some 1) ∧
      (arenaGet (buildMany envSharedEx 10 [2, 3]).arena 1).map (fun n => n.rawId) = some 1 ∧
      rawNodeCount (buildMany envSharedEx 10 [2, 3]) 1 = 1) := by
  constructor
  · intro env fuel ts hnd hcross r
    have hinv : BuilderInv emptyBuilder (fun _ => False) := by
      refine ⟨List.nodup_nil, ?_, ?_⟩ <;> intro x hx <;> simp [rawIds, emptyBuilder] at hx
    obtain ⟨u, hu⟩ :=
      buildMany_aux env fuel ts emptyBuilder (fun _ => False) hinv hnd (fun t _ hf => hf) hcross
    exact List.nodup_iff_count_le_one.mp hu.1 r
  · exact ⟨by decide, by decide, by decide, by decide⟩

/-- Witness for C3 at the concrete shared-ancestor scenario. -/
theorem builder_memoizes_nodes_witness :
    rawNodeCount (buildMany envSharedEx 10 [2, 3]) 2 ≤ 1 :=
  builder_memoizes_nodes.1 envSharedEx 10 [2, 3] (by decide) (by decide) 2

/-! ## C9: builder behaviour on absent or identity-less input -/

/-- C9 counterexample: a raw test node whose `name` attribute is `None` (no
identity) does not make the builder fail: the build succeeds and returns a
`Test` node, contradicting the claim that it fails with
`InvalidNodeError`. -/
theorem builder_no_validation_cex :
    buildTreeForTest envNullNameEx 10 emptyBuilder (some 0) =
      Except.ok (0, ⟨[⟨0, BVariant.bTest, none, none, [], []⟩], [(0, 0)]⟩) ∧
    buildTreeForTest envNullNameEx 10 emptyBuilder (some 0) ≠
      Except.error BuildError.attributeError := by
  have h1 : buildTreeForTest envNullNameEx 10 emptyBuilder (some 0) =
      Except.ok (0, ⟨[⟨0, BVariant.bTest, none, none, [], []⟩], [(0, 0)]⟩) := rfl
  refine ⟨h1, ?_⟩
  intro h
  rw [h1] at h
  exact Except.noConfusion h

/-- C9 amended: the builder validates nothing. An absent (`None`) raw test
node fails with a generic attribute-access error when its `name` is read —
not a dedicated `InvalidNodeError` — while any present raw node, even one
with a `None` identifier, yields a `Test` node without raising (its `None`
name is simply stored). -/
theorem builder_absent_node_behavior :
    (∀ (env : RawEnv) (fuel : Nat) (st : BuilderState),
      buildTreeForTest env fuel st none = Except.error BuildError.attributeError) ∧
    (∀ (env : RawEnv) (fuel : Nat) (st : BuilderState) (t : Nat),
      buildTreeForTest env fuel st (some t) = Except.ok (buildCore env fuel st t)) ∧
    ((arenaGet (buildCore envNullNameEx 10 emptyBuilder 0).2.arena 0).map (fun n => n.origName) =
      some none) :=
  ⟨fun env fuel st => rfl, fun env fuel st t => rfl, by decide⟩
